import Mathlib

/-!
Shallow embedding of the notebook `src/torch/LinearClassifier.ipynb`.

The notebook is a single linear pipeline:
  data generation -> dataset/batch wrapper -> model -> training loop -> evaluation.
Floating-point tensor values are modelled as real numbers; the random draws that
torch produces (the standard-normal feature matrix, the initial layer parameters,
and the per-epoch shuffle permutation of the DataLoader) are passed in as
explicit arguments, making every stage a pure function of those draws.
-/

namespace DayCoder


/-- `torch.sigmoid`, on reals: `1 / (1 + exp (-z))`. -/
noncomputable def sigmoid (z : ℝ) : ℝ := 1 / (1 + Real.exp (-z))

/-- The model of cell 2: `nn.Linear(input_dim, 1)` holds a weight row of
`input_dim` entries plus one scalar bias; `training` is the `nn.Module` mode
flag (set by `model.train()` / `model.eval()`, `True` at construction). -/
structure LinearClassifier where
  weight : List ℝ
  bias : ℝ
  training : Bool

/-- Dot product of a weight row with an input row (`nn.Linear`'s matrix-vector
product for a single output feature). -/
def dot (w x : List ℝ) : ℝ := (List.zipWith (fun a b => a * b) w x).sum

/-- `LinearClassifier.forward`: the affine transform followed by `torch.sigmoid`. -/
noncomputable def LinearClassifier.forward (m : LinearClassifier) (x : List ℝ) : ℝ :=
  sigmoid (dot m.weight x + m.bias)

/-- Data-generation cell: `X = torch.randn(100, 2)`. The 100 standard-normal
draws (two per sample) are the argument; row `i` of the feature matrix is the
two-element list of sample `i`'s features. -/
def genX (draws : Fin 100 → ℝ × ℝ) (i : Fin 100) : List ℝ :=
  [(draws i).1, (draws i).2]

/-- Data-generation cell: `y = (X[:, 0] + X[:, 1] > 0).float().view(-1, 1)`:
label `i` is `1.0` when the two features of sample `i` sum to a positive
number, else `0.0`. -/
noncomputable def genY (draws : Fin 100 → ℝ × ℝ) (i : Fin 100) : ℝ :=
  if (draws i).1 + (draws i).2 > 0 then 1 else 0

/-- Chunking a list into consecutive batches of (at most) `bs` elements,
recursing on an explicit fuel so the definition is structural. This models
`DataLoader(dataset, batch_size=bs, shuffle=True)` (with the default
`drop_last=False`: a short final batch is kept). -/
def toBatchesAux (bs : ℕ) : ℕ → List α → List (List α)
  | 0, _ => []
  | _ + 1, [] => []
  | fuel + 1, a :: l => (a :: l).take bs :: toBatchesAux bs fuel ((a :: l).drop bs)

/-- Chunk a list into batches of (at most) `bs` elements. -/
def toBatches (bs : ℕ) (l : List α) : List (List α) := toBatchesAux bs l.length l

/-- The batch sizes produced by chunking a list of a given length. -/
def sizesAux (bs : ℕ) : ℕ → ℕ → List ℕ
  | 0, _ => []
  | _ + 1, 0 => []
  | fuel + 1, n + 1 => min bs (n + 1) :: sizesAux bs fuel (n + 1 - bs)

/-- The shuffled index order the DataLoader visits in one epoch: the random
permutation `perm` applied to the 100 dataset indices. -/
def shuffledIdx (perm : Fin 100 → Fin 100) : List (Fin 100) :=
  (List.finRange 100).map perm

/-- The index batches one epoch of `DataLoader(dataset, batch_size=32,
shuffle=True)` yields. -/
def dataloaderBatches (perm : Fin 100 → Fin 100) : List (List (Fin 100)) :=
  toBatches 32 (shuffledIdx perm)

/-- Optimizer state of `optim.Adam(model.parameters(), lr=0.01)`: first and
second moment estimates for the weight row and the bias, plus the step
counter `t` that `optimizer.step()` increments once per call. -/
structure AdamState where
  mW : List ℝ
  vW : List ℝ
  mB : ℝ
  vB : ℝ
  t : ℕ

structure TrainState where
  model : LinearClassifier
  adam : AdamState

/-- Learning rate passed to `optim.Adam`. -/
noncomputable def lr : ℝ := 0.01

/-- Adam default `beta1`. -/
noncomputable def beta1 : ℝ := 0.9

/-- Adam default `beta2`. -/
noncomputable def beta2 : ℝ := 0.999

/-- Adam default `eps`. -/
noncomputable def adamEps : ℝ := 1e-8

/-- A training batch: a list of (feature row, label) pairs. -/
def batchOf (X : Fin 100 → List ℝ) (y : Fin 100 → ℝ) (idxs : List (Fin 100)) :
    List (List ℝ × ℝ) :=
  idxs.map (fun i => (X i, y i))

/-- Binary cross-entropy of one prediction `p` against label `yl`
(`nn.BCELoss` per-sample term). -/
noncomputable def bce (p yl : ℝ) : ℝ :=
  -(yl * Real.log p + (1 - yl) * Real.log (1 - p))

/-- `criterion(outputs, labels)`: `nn.BCELoss()` with its default mean
reduction over the batch. -/
noncomputable def batchLoss (m : LinearClassifier) (batch : List (List ℝ × ℝ)) : ℝ :=
  ((batch.map (fun q => bce (m.forward q.1) q.2)).sum) / batch.length

/-- Gradient of the batch loss with respect to the weight row, as autograd
produces it in `loss.backward()`: entry `j` is the batch mean of
`(sigmoid(z_i) - y_i) * x_ij`. The list has one entry per weight. -/
noncomputable def gradW (m : LinearClassifier) (batch : List (List ℝ × ℝ)) : List ℝ :=
  (List.range m.weight.length).map (fun j =>
    ((batch.map (fun q => (m.forward q.1 - q.2) * q.1.getD j 0)).sum) / batch.length)

/-- Gradient of the batch loss with respect to the bias. -/
noncomputable def gradB (m : LinearClassifier) (batch : List (List ℝ × ℝ)) : ℝ :=
  ((batch.map (fun q => m.forward q.1 - q.2)).sum) / batch.length

/-- One Adam coordinate update at step `t`: returns the new parameter value
and the new first/second moment estimates. -/
noncomputable def adamCoord (t : ℕ) (theta mom vel g : ℝ) : ℝ × ℝ × ℝ :=
  let mom' := beta1 * mom + (1 - beta1) * g
  let vel' := beta2 * vel + (1 - beta2) * g ^ 2
  let mhat := mom' / (1 - beta1 ^ t)
  let vhat := vel' / (1 - beta2 ^ t)
  (theta - lr * mhat / (Real.sqrt vhat + adamEps), mom', vel')

/-- The loop body of the training loop for one batch: forward pass, loss,
`optimizer.zero_grad()`, `loss.backward()`, `optimizer.step()` (Adam). -/
noncomputable def trainStep (s : TrainState) (batch : List (List ℝ × ℝ)) : TrainState :=
  let t' := s.adam.t + 1
  let upd := List.zipWith (fun pmv g => adamCoord t' pmv.1 pmv.2.1 pmv.2.2 g)
    (s.model.weight.zip (s.adam.mW.zip s.adam.vW)) (gradW s.model batch)
  let bu := adamCoord t' s.model.bias s.adam.mB s.adam.vB (gradB s.model batch)
  ⟨⟨upd.map (fun u => u.1), bu.1, s.model.training⟩,
   ⟨upd.map (fun u => u.2.1), upd.map (fun u => u.2.2), bu.2.1, bu.2.2, t'⟩⟩

/-- `model.train()`: sets the module's training flag, touching nothing else. -/
def trainMode (s : TrainState) : TrainState :=
  ⟨⟨s.model.weight, s.model.bias, true⟩, s.adam⟩

/-- The per-batch loss values (`loss.item()`) produced over one epoch, each
computed at the model state the batch is reached with. -/
noncomputable def lossesOfEpoch : TrainState → List (List (List ℝ × ℝ)) → List ℝ
  | _, [] => []
  | s, b :: bsl => batchLoss s.model b :: lossesOfEpoch (trainStep s b) bsl

/-- One epoch of the training loop: `model.train()`, then for every batch the
DataLoader yields run the loop body and add `loss.item()` to `running_loss`.
Returns the training state after the epoch together with `running_loss`. -/
noncomputable def epochBody (X : Fin 100 → List ℝ) (y : Fin 100 → ℝ)
    (perm : Fin 100 → Fin 100) (s : TrainState) : TrainState × ℝ :=
  ((dataloaderBatches perm).map (batchOf X y)).foldl
    (fun acc b => (trainStep acc.1 b, acc.2 + batchLoss acc.1.model b))
    (trainMode s, 0)

/-- Shape well-formedness of the training state: the Adam moment lists match
the weight row in length. -/
def WellFormed (s : TrainState) : Prop :=
  s.adam.mW.length = s.model.weight.length ∧ s.adam.vW.length = s.model.weight.length

/-- A line of console output: either
`Epoch [e/100], Loss: v` (carrying `e` and `v`) or `Accuracy: a`. -/
inductive OutputLine where
  | loss : ℕ → ℝ → OutputLine
  | acc : ℝ → OutputLine

def OutputLine.isLoss : OutputLine → Bool
  | .loss _ _ => true
  | .acc _ => false

/-- Whether an output line is the accuracy line. -/
def OutputLine.isAcc : OutputLine → Bool
  | .loss _ _ => false
  | .acc _ => true

/-- The training loop over a list of epoch numbers (the source runs it on
`range 100`): each epoch runs `epochBody` and, when `(epoch+1) % 10 == 0`,
prints one loss line carrying `running_loss / len(dataloader)`. -/
noncomputable def runEpochs (X : Fin 100 → List ℝ) (y : Fin 100 → ℝ)
    (perms : ℕ → Fin 100 → Fin 100) :
    List ℕ → TrainState → TrainState × List OutputLine
  | [], s => (s, [])
  | e :: es, s =>
    let p := epochBody X y (perms e) s
    let line : List OutputLine :=
      if (e + 1) % 10 = 0 then
        [OutputLine.loss (e + 1) (p.2 / ((dataloaderBatches (perms e)).length : ℝ))]
      else []
    let rest := runEpochs X y perms es p.1
    (rest.1, line ++ rest.2)

/-- Evaluation cell: `predicted = (model(X) > 0.5).float()`. -/
noncomputable def predictedLabel (m : LinearClassifier) (x : List ℝ) : ℝ :=
  if m.forward x > 0.5 then 1 else 0

/-- Evaluation cell: `accuracy = (predicted == y).float().mean()`, the mean
over the 100 samples of the indicator that prediction and label agree. -/
noncomputable def accuracy (m : LinearClassifier) (X : Fin 100 → List ℝ)
    (y : Fin 100 → ℝ) : ℝ :=
  (∑ i : Fin 100, if predictedLabel m (X i) = y i then (1 : ℝ) else 0) / 100

/-- The whole program state the notebook holds: the model object, the
optimizer state, the data tensors, and the console output so far. -/
structure ProgState where
  model : LinearClassifier
  adam : AdamState
  X : Fin 100 → List ℝ
  y : Fin 100 → ℝ
  output : List OutputLine

/-- The evaluation cell: `model.eval()` (clears the training flag), then under
`torch.no_grad()` computes `predicted` and `accuracy` and prints the accuracy
line. Weights, bias, optimizer state and data are only read. -/
noncomputable def evalPhase (s : ProgState) : ProgState :=
  let m := LinearClassifier.mk s.model.weight s.model.bias false
  ⟨m, s.adam, s.X, s.y, s.output ++ [OutputLine.acc (accuracy m s.X s.y)]⟩

/-- Fresh Adam state for `n` weight coordinates: zero moments, step count 0. -/
def initAdam (n : ℕ) : AdamState :=
  ⟨List.replicate n 0, List.replicate n 0, 0, 0, 0⟩

/-- `model = LinearClassifier(input_dim)` plus
`optimizer = optim.Adam(...)`: the initial weight row and bias are torch's
random init draws, the module starts in training mode, Adam starts fresh. -/
def initTrainState (w0 : List ℝ) (b0 : ℝ) : TrainState :=
  ⟨⟨w0, b0, true⟩, initAdam w0.length⟩

/-- The whole notebook, top to bottom, as a function of every random draw it
consumes: data generation, model/optimizer setup, 100 training epochs, then
the evaluation cell. -/
noncomputable def runProgram (draws : Fin 100 → ℝ × ℝ) (w0 : List ℝ) (b0 : ℝ)
    (perms : ℕ → Fin 100 → Fin 100) : ProgState :=
  let X := genX draws
  let y := genY draws
  let tr := runEpochs X y perms (List.range 100) (initTrainState w0 b0)
  evalPhase ⟨tr.1.model, tr.1.adam, X, y, tr.2⟩

/-- Arithmetic mean of a list of reals (`.mean()` over a flat tensor). -/
noncomputable def meanList (l : List ℝ) : ℝ := l.sum / l.length

/-- An exception raised by the host tensor library, e.g. on a shape
mismatch in `nn.Linear`. -/
inductive TorchError where
  | shapeMismatch

/-- `forward` as the host library actually runs it: it raises (returns
`Except.error`) when the input row does not match the weight row in length,
as `nn.Linear` does on a shape mismatch. -/
noncomputable def forwardE (m : LinearClassifier) (x : List ℝ) : Except TorchError ℝ :=
  if x.length = m.weight.length then Except.ok (m.forward x)
  else Except.error TorchError.shapeMismatch

/-- The forward pass over a list of samples with the library's exceptions
threaded through. The notebook has no `try`/`except` anywhere, so each call
site simply propagates: an error from any sample aborts the remaining
computation and becomes the program's result. -/
noncomputable def evalForwardAll (m : LinearClassifier) :
    List (List ℝ) → Except TorchError (List ℝ)
  | [] => Except.ok []
  | x :: xs =>
    match forwardE m x with
    | Except.error e => Except.error e
    | Except.ok p =>
      match evalForwardAll m xs with
      | Except.error e => Except.error e
      | Except.ok ps => Except.ok (p :: ps)

/-- A fixed assignment for every random draw of a concrete run: all data
draws are `(1, 1)` and every epoch's shuffle is the identity. -/
def demoDraws : Fin 100 → ℝ × ℝ := fun _ => (1, 1)

/-- The program state as it reaches the evaluation cell in the concrete run
on `demoDraws`, with the model initialised at zero parameters: the trained
model, the optimizer state, the data tensors and the loss lines printed so
far. -/
noncomputable def preEvalState : ProgState :=
  ⟨(runEpochs (genX demoDraws) (genY demoDraws) (fun _ => id) (List.range 100)
      (initTrainState [0, 0] 0)).1.model,
   (runEpochs (genX demoDraws) (genY demoDraws) (fun _ => id) (List.range 100)
      (initTrainState [0, 0] 0)).1.adam,
   genX demoDraws, genY demoDraws,
   (runEpochs (genX demoDraws) (genY demoDraws) (fun _ => id) (List.range 100)
      (initTrainState [0, 0] 0)).2⟩

/-- C1: for every weight/bias state and every input row, `forward` (affine
transform then sigmoid) returns a scalar in the interval `[0, 1]`. -/
theorem forward_in_unit_interval (m : LinearClassifier) (x : List ℝ) :
    0 ≤ m.forward x ∧ m.forward x ≤ 1 := by
  unfold LinearClassifier.forward sigmoid
  have he : 0 < Real.exp (-(dot m.weight x + m.bias)) := Real.exp_pos _
  constructor
  · positivity
  · rw [div_le_one (by linarith)]
    linarith

/-- C2: each generated label is `1.0` exactly when the sample's two features
sum to a positive number and `0.0` otherwise; the feature row is the pair of
draws for that sample (shape `100 × 2` is carried by the types); and the label
is a deterministic function of the sample's features: two samples (even across
two datasets) with the same feature draws get the same label. -/
theorem label_rule_and_determinism (draws draws' : Fin 100 → ℝ × ℝ) (i j : Fin 100)
    (h : draws i = draws' j) :
    (genY draws i = 1 ↔ 0 < (draws i).1 + (draws i).2) ∧
    (genY draws i = 0 ↔ ¬ 0 < (draws i).1 + (draws i).2) ∧
    genX draws i = [(draws i).1, (draws i).2] ∧
    genY draws i = genY draws' j := by
  refine ⟨?_, ?_, rfl, ?_⟩
  · unfold genY
    by_cases hp : 0 < (draws i).1 + (draws i).2 <;> simp [hp]
  · unfold genY
    by_cases hp : 0 < (draws i).1 + (draws i).2 <;> simp [hp]
  · unfold genY
    rw [h]

/-- Witness for C2 at a concrete dataset: both samples carry features `(1, 1)`. -/
theorem label_rule_and_determinism_witness :
    genY (fun _ => ((1 : ℝ), (1 : ℝ))) 0 = genY (fun _ => ((1 : ℝ), (1 : ℝ))) 0 :=
  (label_rule_and_determinism (fun _ => ((1 : ℝ), (1 : ℝ)))
    (fun _ => ((1 : ℝ), (1 : ℝ))) 0 0 rfl).2.2.2

theorem toBatchesAux_map_length (bs : ℕ) :
    ∀ (fuel : ℕ) (l : List α),
    (toBatchesAux bs fuel l).map List.length = sizesAux bs fuel l.length := by
  intro fuel
  induction fuel with
  | zero => intro l; simp [toBatchesAux, sizesAux]
  | succ n ih =>
    intro l
    cases l with
    | nil => simp [toBatchesAux, sizesAux]
    | cons a t =>
      simp [toBatchesAux, sizesAux, ih, List.length_take, List.length_drop]

theorem toBatchesAux_join (bs : ℕ) (hbs : 1 ≤ bs) :
    ∀ (fuel : ℕ) (l : List α), l.length ≤ fuel → (toBatchesAux bs fuel l).flatten = l := by
  intro fuel
  induction fuel with
  | zero =>
    intro l h
    have hl : l = [] := List.length_eq_zero.mp (Nat.le_zero.mp h)
    subst hl
    simp [toBatchesAux]
  | succ n ih =>
    intro l h
    cases l with
    | nil => simp [toBatchesAux]
    | cons a t =>
      have hd : ((a :: t).drop bs).length ≤ n := by
        rw [List.length_drop]
        simp only [List.length_cons] at h ⊢
        omega
      simp only [toBatchesAux, List.flatten]
      rw [ih _ hd, List.take_append_drop]

theorem shuffledIdx_length (perm : Fin 100 → Fin 100) : (shuffledIdx perm).length = 100 := by
  simp [shuffledIdx]

theorem dataloaderBatches_map_length (perm : Fin 100 → Fin 100) :
    (dataloaderBatches perm).map List.length = [32, 32, 32, 4] := by
  unfold dataloaderBatches toBatches
  rw [toBatchesAux_map_length, shuffledIdx_length]
  rfl

theorem dataloaderBatches_length (perm : Fin 100 → Fin 100) :
    (dataloaderBatches perm).length = 4 := by
  have h := congrArg List.length (dataloaderBatches_map_length perm)
  simpa using h

theorem dataloaderBatches_join (perm : Fin 100 → Fin 100) :
    (dataloaderBatches perm).flatten = shuffledIdx perm := by
  unfold dataloaderBatches toBatches
  exact toBatchesAux_join 32 (by norm_num) _ _ le_rfl

theorem shuffledIdx_count (perm : Fin 100 → Fin 100) (hp : Function.Bijective perm)
    (s : Fin 100) : (shuffledIdx perm).count s = 1 := by
  apply List.count_eq_one_of_mem
  · exact (List.nodup_finRange 100).map hp.injective
  · obtain ⟨t, ht⟩ := hp.surjective s
    exact List.mem_map.mpr ⟨t, List.mem_finRange t, ht⟩

theorem foldl_trainStep_running (bsl : List (List (List ℝ × ℝ))) :
    ∀ (s : TrainState) (r : ℝ),
    bsl.foldl (fun acc b => (trainStep acc.1 b, acc.2 + batchLoss acc.1.model b)) (s, r)
      = (bsl.foldl trainStep s, r + (lossesOfEpoch s bsl).sum) := by
  induction bsl with
  | nil => intro s r; simp [lossesOfEpoch]
  | cons b t ih =>
    intro s r
    simp only [List.foldl_cons, ih, lossesOfEpoch, List.sum_cons]
    rw [add_assoc]

theorem epochBody_eq (X : Fin 100 → List ℝ) (y : Fin 100 → ℝ)
    (perm : Fin 100 → Fin 100) (s : TrainState) :
    epochBody X y perm s
      = (((dataloaderBatches perm).map (batchOf X y)).foldl trainStep (trainMode s),
         (lossesOfEpoch (trainMode s) ((dataloaderBatches perm).map (batchOf X y))).sum) := by
  unfold epochBody
  rw [foldl_trainStep_running]
  rw [zero_add]

theorem trainStep_t (s : TrainState) (b : List (List ℝ × ℝ)) :
    (trainStep s b).adam.t = s.adam.t + 1 := rfl

theorem foldl_trainStep_t (bsl : List (List (List ℝ × ℝ))) :
    ∀ s : TrainState, (bsl.foldl trainStep s).adam.t = s.adam.t + bsl.length := by
  induction bsl with
  | nil => intro s; simp
  | cons b t ih =>
    intro s
    simp only [List.foldl_cons, ih, trainStep_t, List.length_cons]
    omega

theorem lossesOfEpoch_length (bsl : List (List (List ℝ × ℝ))) :
    ∀ s : TrainState, (lossesOfEpoch s bsl).length = bsl.length := by
  induction bsl with
  | nil => intro s; simp [lossesOfEpoch]
  | cons b t ih => intro s; simp [lossesOfEpoch, ih]

/-- C4: in every epoch, the DataLoader with `batch_size=32` over the 100
samples yields 4 batches of sizes 32, 32, 32, 4; the batches together visit
every sample index exactly once; one loss value (`loss.item()`) is produced
per batch; and `optimizer.step()` runs once per batch, so Adam's step counter
advances by exactly 4 over the epoch. -/
theorem epoch_visits_each_sample_once (perm : Fin 100 → Fin 100)
    (hp : Function.Bijective perm) :
    (dataloaderBatches perm).length = 4 ∧
    (dataloaderBatches perm).map List.length = [32, 32, 32, 4] ∧
    (∀ s : Fin 100, ((dataloaderBatches perm).flatten).count s = 1) ∧
    (∀ (X : Fin 100 → List ℝ) (y : Fin 100 → ℝ) (st : TrainState),
      (lossesOfEpoch (trainMode st) ((dataloaderBatches perm).map (batchOf X y))).length = 4) ∧
    (∀ (X : Fin 100 → List ℝ) (y : Fin 100 → ℝ) (st : TrainState),
      ((epochBody X y perm st).1).adam.t = st.adam.t + 4) := by
  refine ⟨dataloaderBatches_length perm, dataloaderBatches_map_length perm, ?_, ?_, ?_⟩
  · intro s
    rw [dataloaderBatches_join]
    exact shuffledIdx_count perm hp s
  · intro X y st
    rw [lossesOfEpoch_length, List.length_map, dataloaderBatches_length]
  · intro X y st
    have h := congrArg (fun q : TrainState × ℝ => q.1.adam.t) (epochBody_eq X y perm st)
    simp only at h
    rw [h, foldl_trainStep_t, List.length_map, dataloaderBatches_length]
    rfl

/-- Witness for C4 at the identity shuffle permutation. -/
theorem epoch_visits_each_sample_once_witness :
    Function.Bijective (id : Fin 100 → Fin 100) ∧ (dataloaderBatches id).length = 4 :=
  ⟨Function.bijective_id,
   (epoch_visits_each_sample_once id Function.bijective_id).1⟩

theorem gradW_length (m : LinearClassifier) (b : List (List ℝ × ℝ)) :
    (gradW m b).length = m.weight.length := by
  simp [gradW]

theorem trainStep_shape (s : TrainState) (b : List (List ℝ × ℝ)) (h : WellFormed s) :
    (trainStep s b).model.weight.length = s.model.weight.length ∧
    WellFormed (trainStep s b) := by
  obtain ⟨h1, h2⟩ := h
  refine ⟨?_, ?_, ?_⟩ <;>
    simp [trainStep, WellFormed, List.length_zipWith, List.length_zip,
      gradW_length, h1, h2, min_self]

theorem foldl_trainStep_shape (bsl : List (List (List ℝ × ℝ))) :
    ∀ s : TrainState, WellFormed s →
    (bsl.foldl trainStep s).model.weight.length = s.model.weight.length ∧
    WellFormed (bsl.foldl trainStep s) := by
  induction bsl with
  | nil => intro s h; exact ⟨rfl, h⟩
  | cons b t ih =>
    intro s h
    obtain ⟨hlen, hwf⟩ := trainStep_shape s b h
    obtain ⟨hlen2, hwf2⟩ := ih (trainStep s b) hwf
    exact ⟨by rw [List.foldl_cons, hlen2, hlen], by rw [List.foldl_cons]; exact hwf2⟩

theorem trainMode_model (s : TrainState) :
    (trainMode s).model.weight = s.model.weight ∧ (trainMode s).adam = s.adam :=
  ⟨rfl, rfl⟩

theorem epochBody_shape (X : Fin 100 → List ℝ) (y : Fin 100 → ℝ)
    (perm : Fin 100 → Fin 100) (s : TrainState) (h : WellFormed s) :
    ((epochBody X y perm s).1).model.weight.length = s.model.weight.length ∧
    WellFormed ((epochBody X y perm s).1) := by
  have he := congrArg (fun q : TrainState × ℝ => q.1) (epochBody_eq X y perm s)
  simp only at he
  rw [he]
  have hwf : WellFormed (trainMode s) := h
  obtain ⟨h1, h2⟩ :=
    foldl_trainStep_shape ((dataloaderBatches perm).map (batchOf X y)) (trainMode s) hwf
  exact ⟨h1, h2⟩

theorem runEpochs_fst (X : Fin 100 → List ℝ) (y : Fin 100 → ℝ)
    (perms : ℕ → Fin 100 → Fin 100) (e : ℕ) (es : List ℕ) (s : TrainState) :
    (runEpochs X y perms (e :: es) s).1
      = (runEpochs X y perms es ((epochBody X y (perms e) s).1)).1 := rfl

theorem runEpochs_snd (X : Fin 100 → List ℝ) (y : Fin 100 → ℝ)
    (perms : ℕ → Fin 100 → Fin 100) (e : ℕ) (es : List ℕ) (s : TrainState) :
    (runEpochs X y perms (e :: es) s).2
      = (if (e + 1) % 10 = 0 then
           [OutputLine.loss (e + 1)
             ((epochBody X y (perms e) s).2 / ((dataloaderBatches (perms e)).length : ℝ))]
         else [])
        ++ (runEpochs X y perms es ((epochBody X y (perms e) s).1)).2 := rfl

theorem runEpochs_shape (X : Fin 100 → List ℝ) (y : Fin 100 → ℝ)
    (perms : ℕ → Fin 100 → Fin 100) (es : List ℕ) :
    ∀ s : TrainState, WellFormed s →
    ((runEpochs X y perms es s).1).model.weight.length = s.model.weight.length ∧
    WellFormed ((runEpochs X y perms es s).1) := by
  induction es with
  | nil => intro s h; exact ⟨rfl, h⟩
  | cons e es ih =>
    intro s h
    obtain ⟨h1, h2⟩ := epochBody_shape X y (perms e) s h
    obtain ⟨h3, h4⟩ := ih _ h2
    rw [runEpochs_fst]
    exact ⟨by rw [h3, h1], h4⟩

theorem initTrainState_wf (w0 : List ℝ) (b0 : ℝ) : WellFormed (initTrainState w0 b0) := by
  constructor <;> simp [initTrainState, initAdam]

theorem runProgram_model_weight (draws : Fin 100 → ℝ × ℝ) (w0 : List ℝ) (b0 : ℝ)
    (perms : ℕ → Fin 100 → Fin 100) :
    (runProgram draws w0 b0 perms).model.weight
      = ((runEpochs (genX draws) (genY draws) perms (List.range 100)
          (initTrainState w0 b0)).1).model.weight := by
  simp only [runProgram, evalPhase]

/-- C5: the model's parameters are one weight row of length 2 and one scalar
bias (the bias is a single real by the type of `LinearClassifier`); the weight
row still has length 2 after any list of training epochs and at the end of the
whole program, and each individual training step (forward, backward, Adam
step) preserves the parameter shape and the optimizer-state shape — no
operation adds or removes parameters. -/
theorem params_shape_invariant (w0 : List ℝ) (b0 : ℝ) (hw : w0.length = 2)
    (draws : Fin 100 → ℝ × ℝ) (perms : ℕ → Fin 100 → Fin 100) (es : List ℕ) :
    ((runEpochs (genX draws) (genY draws) perms es
        (initTrainState w0 b0)).1).model.weight.length = 2 ∧
    (runProgram draws w0 b0 perms).model.weight.length = 2 ∧
    (∀ (s : TrainState) (b : List (List ℝ × ℝ)), WellFormed s →
      (trainStep s b).model.weight.length = s.model.weight.length ∧
      WellFormed (trainStep s b)) := by
  refine ⟨?_, ?_, fun s b h => trainStep_shape s b h⟩
  · rw [(runEpochs_shape (genX draws) (genY draws) perms es _
      (initTrainState_wf w0 b0)).1]
    exact hw
  · rw [runProgram_model_weight,
      (runEpochs_shape (genX draws) (genY draws) perms (List.range 100) _
        (initTrainState_wf w0 b0)).1]
    exact hw

/-- Witness for C5 at a concrete initial model and concrete random draws. -/
theorem params_shape_invariant_witness :
    ([(0 : ℝ), 0].length = 2) ∧
    (runProgram (fun _ => ((1 : ℝ), 1)) [0, 0] 0 (fun _ => id)).model.weight.length = 2 :=
  ⟨rfl, (params_shape_invariant [0, 0] 0 rfl (fun _ => ((1 : ℝ), 1))
    (fun _ => id) []).2.1⟩

/-- C3: the evaluation cell predicts label `1.0` exactly when the sigmoid
output on the sample is strictly greater than `0.5` and `0.0` otherwise, and
the reported accuracy is the number of samples whose prediction equals the
true label divided by 100. -/
theorem threshold_and_accuracy (m : LinearClassifier) (X : Fin 100 → List ℝ)
    (y : Fin 100 → ℝ) :
    (∀ i : Fin 100,
      (predictedLabel m (X i) = 1 ↔ 0.5 < m.forward (X i)) ∧
      (predictedLabel m (X i) = 0 ↔ ¬ 0.5 < m.forward (X i))) ∧
    accuracy m X y =
      ((Finset.univ.filter
        (fun i : Fin 100 => predictedLabel m (X i) = y i)).card : ℝ) / 100 := by
  constructor
  · intro i
    constructor <;>
      (unfold predictedLabel; by_cases h : (0.5 : ℝ) < m.forward (X i) <;> simp [h])
  · unfold accuracy
    rw [Finset.sum_boole]

/-- C7: the program is deterministic given its random draws: two runs fed the
same data draws, the same parameter-init draws, and the same shuffle draws
generate the same dataset and end in the same final state (same trained
parameters and same printed output, the accuracy line included). -/
theorem deterministic_replay (d d' : Fin 100 → ℝ × ℝ) (w0 w0' : List ℝ)
    (b0 b0' : ℝ) (p p' : ℕ → Fin 100 → Fin 100)
    (hd : d = d') (hw : w0 = w0') (hb : b0 = b0') (hp : p = p') :
    genX d = genX d' ∧ genY d = genY d' ∧
    runProgram d w0 b0 p = runProgram d' w0' b0' p' := by
  subst hd; subst hw; subst hb; subst hp
  exact ⟨rfl, rfl, rfl⟩

/-- Witness for C7 at concrete draws. -/
theorem deterministic_replay_witness :
    runProgram (fun _ => ((1 : ℝ), 1)) [0, 0] 0 (fun _ => id)
      = runProgram (fun _ => ((1 : ℝ), 1)) [0, 0] 0 (fun _ => id) :=
  (deterministic_replay (fun _ => ((1 : ℝ), 1)) (fun _ => ((1 : ℝ), 1))
    [0, 0] [0, 0] 0 0 (fun _ => id) (fun _ => id) rfl rfl rfl rfl).2.2

theorem runEpochs_countP_loss (X : Fin 100 → List ℝ) (y : Fin 100 → ℝ)
    (perms : ℕ → Fin 100 → Fin 100) (es : List ℕ) :
    ∀ s : TrainState,
    ((runEpochs X y perms es s).2).countP OutputLine.isLoss
      = es.countP (fun e => decide ((e + 1) % 10 = 0)) := by
  induction es with
  | nil => intro s; simp [runEpochs]
  | cons e es ih =>
    intro s
    rw [runEpochs_snd, List.countP_append, ih, List.countP_cons]
    by_cases h : (e + 1) % 10 = 0 <;>
      simp [h, OutputLine.isLoss, Nat.add_comm]

theorem runEpochs_output_isLoss (X : Fin 100 → List ℝ) (y : Fin 100 → ℝ)
    (perms : ℕ → Fin 100 → Fin 100) (es : List ℕ) :
    ∀ s : TrainState, ∀ o ∈ (runEpochs X y perms es s).2, o.isLoss = true := by
  induction es with
  | nil => intro s o ho; simp [runEpochs] at ho
  | cons e es ih =>
    intro s o ho
    rw [runEpochs_snd] at ho
    rcases List.mem_append.mp ho with h1 | h2
    · by_cases h : (e + 1) % 10 = 0
      · rw [if_pos h] at h1
        rw [List.mem_singleton.mp h1]
        rfl
      · rw [if_neg h] at h1
        simp at h1
    · exact ih _ o h2

theorem runEpochs_mem_loss (X : Fin 100 → List ℝ) (y : Fin 100 → ℝ)
    (perms : ℕ → Fin 100 → Fin 100) (es : List ℕ) :
    ∀ (s : TrainState) (e : ℕ), e ∈ es → (e + 1) % 10 = 0 →
    ∃ v, OutputLine.loss (e + 1) v ∈ (runEpochs X y perms es s).2 := by
  induction es with
  | nil => intro s e he; simp at he
  | cons e' es ih =>
    intro s e he h10
    rw [runEpochs_snd]
    rcases List.mem_cons.mp he with h | hmem
    · subst h
      exact ⟨_, List.mem_append.mpr (Or.inl (by rw [if_pos h10]; exact List.mem_singleton.mpr rfl))⟩
    · obtain ⟨v, hv⟩ := ih _ e hmem h10
      exact ⟨v, List.mem_append.mpr (Or.inr hv)⟩

theorem runEpochs_loss_epochs (X : Fin 100 → List ℝ) (y : Fin 100 → ℝ)
    (perms : ℕ → Fin 100 → Fin 100) (es : List ℕ) :
    ∀ (s : TrainState) (n : ℕ) (v : ℝ),
    OutputLine.loss n v ∈ (runEpochs X y perms es s).2 →
    ∃ e ∈ es, n = e + 1 ∧ n % 10 = 0 := by
  induction es with
  | nil => intro s n v h; simp [runEpochs] at h
  | cons e' es ih =>
    intro s n v h
    rw [runEpochs_snd] at h
    rcases List.mem_append.mp h with h1 | h2
    · by_cases hc : (e' + 1) % 10 = 0
      · rw [if_pos hc] at h1
        have he := List.mem_singleton.mp h1
        have hn : n = e' + 1 := by
          injection he
        exact ⟨e', List.mem_cons_self e' es, hn, by rw [hn]; exact hc⟩
      · rw [if_neg hc] at h1
        simp at h1
    · obtain ⟨e, hmem, hrest⟩ := ih _ n v h2
      exact ⟨e, List.mem_cons_of_mem e' hmem, hrest⟩

theorem runProgram_output (draws : Fin 100 → ℝ × ℝ) (w0 : List ℝ) (b0 : ℝ)
    (perms : ℕ → Fin 100 → Fin 100) :
    ∃ a : ℝ, (runProgram draws w0 b0 perms).output
      = (runEpochs (genX draws) (genY draws) perms (List.range 100)
          (initTrainState w0 b0)).2 ++ [OutputLine.acc a] :=
  ⟨_, by simp only [runProgram, evalPhase]; rfl⟩

theorem isAcc_eq_false_of_isLoss (o : OutputLine) (h : o.isLoss = true) :
    o.isAcc = false := by
  cases o with
  | loss n v => rfl
  | acc a => simp [OutputLine.isLoss] at h

/-- C6: the program's only output is its console trace: over the 100 training
epochs exactly 10 loss lines are printed (one exactly for each epoch whose
1-based number is divisible by 10) and after training exactly one accuracy
line, so the whole trace holds 11 lines and nothing else; the final state
carries no other output channel. -/
theorem console_output_shape (draws : Fin 100 → ℝ × ℝ) (w0 : List ℝ) (b0 : ℝ)
    (perms : ℕ → Fin 100 → Fin 100) :
    ((runProgram draws w0 b0 perms).output).countP OutputLine.isLoss = 10 ∧
    ((runProgram draws w0 b0 perms).output).countP OutputLine.isAcc = 1 ∧
    ((runProgram draws w0 b0 perms).output).length = 11 ∧
    (∀ (n : ℕ) (v : ℝ), OutputLine.loss n v ∈ (runProgram draws w0 b0 perms).output →
      n % 10 = 0 ∧ 1 ≤ n ∧ n ≤ 100) ∧
    (∀ e : ℕ, e < 100 → (e + 1) % 10 = 0 →
      ∃ v, OutputLine.loss (e + 1) v ∈ (runProgram draws w0 b0 perms).output) := by
  obtain ⟨a, ha⟩ := runProgram_output draws w0 b0 perms
  have hcount : ((runEpochs (genX draws) (genY draws) perms (List.range 100)
      (initTrainState w0 b0)).2).countP OutputLine.isLoss = 10 := by
    rw [runEpochs_countP_loss]
    decide
  have hall := runEpochs_output_isLoss (genX draws) (genY draws) perms (List.range 100)
    (initTrainState w0 b0)
  have hlen : ((runEpochs (genX draws) (genY draws) perms (List.range 100)
      (initTrainState w0 b0)).2).length = 10 := by
    rw [← List.countP_eq_length.mpr hall]
    exact hcount
  refine ⟨?_, ?_, ?_, ?_, ?_⟩
  · rw [ha, List.countP_append, hcount]
    rfl
  · rw [ha, List.countP_append]
    have hz : ((runEpochs (genX draws) (genY draws) perms (List.range 100)
        (initTrainState w0 b0)).2).countP OutputLine.isAcc = 0 := by
      rw [List.countP_eq_zero]
      intro o ho
      rw [isAcc_eq_false_of_isLoss o (hall o ho)]
      simp
    rw [hz]
    rfl
  · rw [ha, List.length_append, hlen]
    rfl
  · intro n v hmem
    rw [ha] at hmem
    rcases List.mem_append.mp hmem with h1 | h2
    · obtain ⟨e, hmem', hn, h10⟩ :=
        runEpochs_loss_epochs (genX draws) (genY draws) perms (List.range 100) _ n v h1
      have he : e < 100 := List.mem_range.mp hmem'
      exact ⟨h10, by omega, by omega⟩
    · simp at h2
  · intro e he h10
    obtain ⟨v, hv⟩ := runEpochs_mem_loss (genX draws) (genY draws) perms (List.range 100)
      (initTrainState w0 b0) e (List.mem_range.mpr he) h10
    exact ⟨v, by rw [ha]; exact List.mem_append.mpr (Or.inl hv)⟩

/-- Witness for C6 at concrete draws. -/
theorem console_output_shape_witness :
    ((runProgram (fun _ => ((1 : ℝ), 1)) [0, 0] 0 (fun _ => id)).output).countP
      OutputLine.isLoss = 10 :=
  (console_output_shape (fun _ => ((1 : ℝ), 1)) [0, 0] 0 (fun _ => id)).1

/-- C9: the loss printed every 10 epochs is `running_loss / len(dataloader)`:
the sum of that epoch's four per-batch loss values divided by 4, an
unweighted mean over batches; and because the last batch holds only 4 of the
100 samples this aggregation differs in general from the per-sample mean over
the dataset — witnessed by per-sample loss values arranged over the actual
batch sizes 32, 32, 32, 4 on which the two aggregations disagree. -/
theorem printed_loss_is_batch_mean (X : Fin 100 → List ℝ) (y : Fin 100 → ℝ)
    (perm : Fin 100 → Fin 100) (s : TrainState) :
    (epochBody X y perm s).2 / ((dataloaderBatches perm).length : ℝ)
      = (lossesOfEpoch (trainMode s) ((dataloaderBatches perm).map (batchOf X y))).sum / 4 ∧
    (∃ l1 l2 l3 l4 : List ℝ,
      l1.length = 32 ∧ l2.length = 32 ∧ l3.length = 32 ∧ l4.length = 4 ∧
      meanList [meanList l1, meanList l2, meanList l3, meanList l4]
        ≠ meanList (l1 ++ l2 ++ l3 ++ l4)) := by
  constructor
  · rw [epochBody_eq, dataloaderBatches_length]
    norm_num
  · refine ⟨List.replicate 32 0, List.replicate 32 0, List.replicate 32 0,
      List.replicate 4 1, by simp, by simp, by simp, by simp, ?_⟩
    have h0 : meanList (List.replicate 32 (0 : ℝ)) = 0 := by
      simp [meanList]
    have h1 : meanList (List.replicate 4 (1 : ℝ)) = 1 := by
      simp [meanList]
      norm_num
    rw [h0, h1]
    have h2 : meanList [(0 : ℝ), 0, 0, 1] = 1 / 4 := by
      simp [meanList]
    have h3 : meanList (List.replicate 32 (0 : ℝ) ++ List.replicate 32 0
        ++ List.replicate 32 0 ++ List.replicate 4 1) = 1 / 25 := by
      simp [meanList]
      norm_num
    rw [h2, h3]
    norm_num

/-- Witness for C9 in a concrete epoch. -/
theorem printed_loss_is_batch_mean_witness :
    (epochBody (genX demoDraws) (genY demoDraws) id (initTrainState [0, 0] 0)).2
        / ((dataloaderBatches id).length : ℝ)
      = (lossesOfEpoch (trainMode (initTrainState [0, 0] 0))
          ((dataloaderBatches id).map (batchOf (genX demoDraws) (genY demoDraws)))).sum / 4 :=
  (printed_loss_is_batch_mean (genX demoDraws) (genY demoDraws) id
    (initTrainState [0, 0] 0)).1

theorem foldl_trainStep_training (bsl : List (List (List ℝ × ℝ))) :
    ∀ s : TrainState, ((bsl.foldl trainStep s).model).training = s.model.training := by
  induction bsl with
  | nil => intro s; rfl
  | cons b t ih => intro s; rw [List.foldl_cons, ih]; rfl

theorem epochBody_training (X : Fin 100 → List ℝ) (y : Fin 100 → ℝ)
    (perm : Fin 100 → Fin 100) (s : TrainState) :
    ((epochBody X y perm s).1).model.training = true := by
  have he := congrArg (fun q : TrainState × ℝ => q.1) (epochBody_eq X y perm s)
  simp only at he
  rw [he, foldl_trainStep_training]
  rfl

theorem runEpochs_training (X : Fin 100 → List ℝ) (y : Fin 100 → ℝ)
    (perms : ℕ → Fin 100 → Fin 100) (es : List ℕ) :
    ∀ s : TrainState, es ≠ [] →
    ((runEpochs X y perms es s).1).model.training = true := by
  induction es with
  | nil => intro s h; exact absurd rfl h
  | cons e es ih =>
    intro s _
    rw [runEpochs_fst]
    cases es with
    | nil => exact epochBody_training X y (perms e) s
    | cons e2 es2 => exact ih _ (by simp)

/-- C10 counterexample: at the concrete state the training loop hands to the
evaluation cell (run on `demoDraws`), the evaluation cell does change program
state beyond its printed output: `model.eval()` flips the module's
training-mode flag, which the preceding `model.train()` calls had left set,
so the model object after evaluation differs from the model object before. -/
theorem evalPhase_mutates_training_flag :
    (evalPhase preEvalState).model ≠ preEvalState.model := by
  intro h
  have htr : preEvalState.model.training = true := by
    simp only [preEvalState]
    exact runEpochs_training (genX demoDraws) (genY demoDraws) (fun _ => id)
      (List.range 100) _ (List.length_pos.mp (by simp))
  rw [← h] at htr
  simp [evalPhase] at htr

/-- C10 (amended): the evaluation cell modifies neither the model's weight
row and bias, nor the optimizer state, nor the data tensors `X` and `y`;
besides appending the accuracy line to the console output, its only state
change is clearing the model's training-mode flag (`model.eval()`). -/
theorem evalPhase_frame (s : ProgState) :
    (evalPhase s).model.weight = s.model.weight ∧
    (evalPhase s).model.bias = s.model.bias ∧
    (evalPhase s).adam = s.adam ∧
    (evalPhase s).X = s.X ∧
    (evalPhase s).y = s.y ∧
    (evalPhase s).model.training = false ∧
    (evalPhase s).output = s.output ++
      [OutputLine.acc (accuracy (LinearClassifier.mk s.model.weight s.model.bias false)
        s.X s.y)] :=
  ⟨rfl, rfl, rfl, rfl, rfl, rfl, rfl⟩

/-- C8: the notebook contains no error handling: every library call site
propagates. If any sample in a forward pass has a row the host library
rejects (its length differs from the weight row's), the whole pass returns
that exception — nothing catches or recovers from it; and when every row is
well-formed the pass succeeds on all samples. -/
theorem no_error_handling (m : LinearClassifier) (xs : List (List ℝ)) :
    ((∃ x ∈ xs, x.length ≠ m.weight.length) →
      evalForwardAll m xs = Except.error TorchError.shapeMismatch) ∧
    ((∀ x ∈ xs, x.length = m.weight.length) →
      ∃ ps, evalForwardAll m xs = Except.ok ps ∧ ps.length = xs.length) := by
  induction xs with
  | nil =>
    constructor
    · rintro ⟨x, hx, _⟩
      simp at hx
    · intro _
      exact ⟨[], rfl, rfl⟩
  | cons x xs ih =>
    constructor
    · rintro ⟨z, hz, hne⟩
      rcases List.mem_cons.mp hz with h | h
      · subst h
        simp [evalForwardAll, forwardE, hne]
      · by_cases hx : x.length = m.weight.length
        · have hrec := ih.1 ⟨z, h, hne⟩
          simp [evalForwardAll, forwardE, hx, hrec]
        · simp [evalForwardAll, forwardE, hx]
    · intro hall
      have hx := hall x (List.mem_cons_self x xs)
      obtain ⟨ps, hps, hlen⟩ := ih.2 (fun z hz => hall z (List.mem_cons_of_mem x hz))
      refine ⟨m.forward x :: ps, ?_, by simp [hlen]⟩
      simp [evalForwardAll, forwardE, hx, hps]

/-- Witness for C8: a model with two weights fed a one-feature row — the
shape-mismatch exception reaches the result uncaught. -/
theorem no_error_handling_witness :
    evalForwardAll ⟨[0, 0], 0, true⟩ [[1]] = Except.error TorchError.shapeMismatch :=
  (no_error_handling ⟨[0, 0], 0, true⟩ [[1]]).1
    ⟨[1], List.mem_singleton.mpr rfl, by simp⟩

end DayCoder
